import Mathlib

/-!
Verification of the mc-launcher core against its natural-language specification.

The JavaScript source is shallowly embedded: strings are Lean `String`s
(manipulated through `List Char` where JS string built-ins are modelled),
the filesystem is passed explicitly as lists of file names (or of
path/hash pairs), and fallible operations return `Except`.  Each embedded
definition is translated from the function of the repository named in its
doc comment.
-/

namespace MCLauncher

/-! ## JS string built-ins, modelled on `List Char`

The JavaScript `String.prototype.split(sep)` method with a one-character separator,
`replace(ch, ch)` (first occurrence), `replace(/ch/g, ch)` (global) and
`replaceAll(pat, repl)` are modelled below.  `splitOnCh` agrees with JS
`split`: splitting the empty string gives `[""]`, a leading separator gives
a leading empty piece, and so on. -/

def splitOnCh (sep : Char) : List Char → List (List Char)
  | [] => [[]]
  | c :: cs =>
    if c = sep then [] :: splitOnCh sep cs
    else
      match splitOnCh sep cs with
      | [] => [[c]]
      | y :: ys => (c :: y) :: ys

theorem splitOnCh_ne_nil (sep : Char) (l : List Char) : splitOnCh sep l ≠ [] := by
  induction l with
  | nil => simp [splitOnCh]
  | cons c cs ih =>
    simp only [splitOnCh]
    split
    · simp
    · cases h : splitOnCh sep cs with
      | nil => simp
      | cons y ys => simp

theorem not_mem_of_mem_splitOnCh (sep : Char) (l : List Char) :
    ∀ u ∈ splitOnCh sep l, sep ∉ u := by
  induction l with
  | nil => intro u hu; simp [splitOnCh] at hu; simp [hu]
  | cons c cs ih =>
    intro u hu
    simp only [splitOnCh] at hu
    by_cases hc : c = sep
    · simp [hc] at hu
      rcases hu with h | h
      · simp [h]
      · exact ih u h
    · rw [if_neg hc] at hu
      cases h : splitOnCh sep cs with
      | nil => exact absurd h (splitOnCh_ne_nil sep cs)
      | cons y ys =>
        rw [h] at hu
        simp at hu
        rcases hu with h' | h'
        · subst h'
          intro hmem
          simp at hmem
          rcases hmem with h'' | h''
          · exact hc h''.symm
          · exact ih y (by simp [h]) h''
        · exact ih u (by simp [h, h'])

theorem splitOnCh_of_not_mem (sep : Char) (l : List Char) (h : sep ∉ l) :
    splitOnCh sep l = [l] := by
  induction l with
  | nil => simp [splitOnCh]
  | cons c cs ih =>
    simp at h
    simp only [splitOnCh]
    rw [if_neg (fun hc => h.1 hc.symm), ih h.2]

/-- A one-piece split means the input equals that piece. -/
theorem splitOnCh_eq_single (sep : Char) (l y : List Char)
    (h : splitOnCh sep l = [y]) : l = y := by
  induction l generalizing y with
  | nil =>
    simp [splitOnCh] at h
    simp [h]
  | cons c cs ih =>
    simp only [splitOnCh] at h
    by_cases hc : c = sep
    · rw [if_pos hc] at h
      simp at h
      exact absurd h.2 (splitOnCh_ne_nil sep cs)
    · rw [if_neg hc] at h
      cases hcs : splitOnCh sep cs with
      | nil => exact absurd hcs (splitOnCh_ne_nil sep cs)
      | cons z zs =>
        rw [hcs] at h
        simp at h
        obtain ⟨hy, hzs⟩ := h
        have hz := ih z (by rw [hcs, hzs])
        rw [← hy, hz]

/-- Reconstruction of the input from a two-piece split: if `splitOnCh`
returns exactly `[x, y]` then the input was `x ++ sep :: y` with the
separator absent from both pieces. -/
theorem splitOnCh_eq_pair (sep : Char) (l x y : List Char)
    (h : splitOnCh sep l = [x, y]) : l = x ++ sep :: y ∧ sep ∉ x ∧ sep ∉ y := by
  induction l generalizing x with
  | nil => simp [splitOnCh] at h
  | cons c cs ih =>
    simp only [splitOnCh] at h
    by_cases hc : c = sep
    · rw [if_pos hc] at h
      simp at h
      obtain ⟨hx, hcs⟩ := h
      have hy : sep ∉ y := not_mem_of_mem_splitOnCh sep cs y (by simp [hcs])
      have hcsy := splitOnCh_eq_single sep cs y hcs
      subst hx
      refine ⟨?_, ?_, hy⟩
      · simp [hc, hcsy]
      · simp
    · rw [if_neg hc] at h
      cases hcs : splitOnCh sep cs with
      | nil => exact absurd hcs (splitOnCh_ne_nil sep cs)
      | cons z zs =>
        rw [hcs] at h
        simp at h
        obtain ⟨hzx, hzs⟩ := h
        obtain ⟨hl, hzsep, hysep⟩ := ih z (by rw [hcs, hzs])
        refine ⟨?_, ?_, hysep⟩
        · rw [← hzx]; simp [hl]
        · rw [← hzx]
          simp only [List.mem_cons, not_or]
          exact ⟨fun h' => hc h'.symm, hzsep⟩

/-- JS `str.replace(ch, ch2)` — only the first occurrence is replaced. -/
def replaceFirstCh (a b : Char) : List Char → List Char
  | [] => []
  | c :: cs => if c = a then b :: cs else c :: replaceFirstCh a b cs

theorem replaceFirstCh_append_not_mem (a b : Char) (x y : List Char) (hx : a ∉ x) :
    replaceFirstCh a b (x ++ a :: y) = x ++ b :: y := by
  induction x with
  | nil => simp [replaceFirstCh]
  | cons c cs ih =>
    simp only [List.mem_cons, not_or] at hx
    have hca : ¬(c = a) := fun h => hx.1 h.symm
    simp only [List.cons_append, replaceFirstCh, if_neg hca]
    exact congrArg (fun t => c :: t) (ih hx.2)

/-- JS `str.replace(/ch/g, ch2)` — every occurrence of a single character. -/
def replaceAllCh (a b : Char) (l : List Char) : List Char :=
  l.map (fun c => if c = a then b else c)

end MCLauncher

namespace MCLauncher

/-! ## The launch front end, `src/unnamed/part_003` (`MinecraftLauncher`)

`MinecraftLauncher.launch` throws `"Minecraft is already running!"` when its
`isRunning` flag is set; otherwise it performs the launch, sets `isRunning`,
and records the spawned game process.  The spawn count lets the theorems
speak about "no second process is spawned". -/

structure CtrlState where
  isRunning : Bool
  spawnCount : Nat
deriving DecidableEq, Repr

/-- Embedding of `MinecraftLauncher.launch` (src/unnamed/part_003, lines
57-68 and 168): refuse when `isRunning`, otherwise spawn and mark running. -/
def launchCtrl (st : CtrlState) : Except String CtrlState :=
  if st.isRunning then Except.error "Minecraft is already running!"
  else Except.ok { isRunning := true, spawnCount := st.spawnCount + 1 }

/-- C5: calling launch while a previous launch is still running fails with the
already-running error and spawns nothing; launch succeeds exactly from the
idle (not running) state. -/
theorem c5_launch_refused_when_running (st : CtrlState) :
    (st.isRunning = true →
      launchCtrl st = Except.error "Minecraft is already running!")
    ∧ (st.isRunning = false →
      launchCtrl st = Except.ok { isRunning := true, spawnCount := st.spawnCount + 1 })
    ∧ (∀ st', launchCtrl st = Except.ok st' → st.isRunning = false) := by
  refine ⟨fun h => by simp [launchCtrl, h], fun h => by simp [launchCtrl, h], ?_⟩
  intro st' h
  by_cases hr : st.isRunning
  · simp [launchCtrl, hr] at h
  · simpa using hr

/-- Witness for C5 at concrete states: a running launcher is refused and an
idle one is not. -/
theorem c5_launch_refused_when_running_witness :
    launchCtrl { isRunning := true, spawnCount := 1 }
      = Except.error "Minecraft is already running!"
    ∧ launchCtrl { isRunning := false, spawnCount := 0 }
      = Except.ok { isRunning := true, spawnCount := 1 } :=
  ⟨(c5_launch_refused_when_running { isRunning := true, spawnCount := 1 }).1 rfl,
   (c5_launch_refused_when_running { isRunning := false, spawnCount := 0 }).2.1 rfl⟩

/-! ## Option normalisation in `Launch.Launch` (src/Launcher/Launch.js 120-125)

The launcher emits an error when no authenticator is configured, and clamps
`downloadFileMultiple` into the range 1..30 before any download begins. -/

/-- Embedding of the `downloadFileMultiple` clamp in `Launch.Launch`
(src/Launcher/Launch.js lines 122-125). -/
def clampDownloadFileMultiple (n : Int) : Int :=
  let n1 := if n < 1 then 1 else n
  if n1 > 30 then 30 else n1

/-- Embedding of the option check sequence in `Launch.Launch`: missing
authenticator is an error; any `downloadFileMultiple` value is accepted and
silently clamped. -/
def effectiveDownloadConcurrency (hasAuthenticator : Bool) (n : Int) : Except String Int :=
  if !hasAuthenticator then Except.error "Authenticator not found"
  else Except.ok (clampDownloadFileMultiple n)

/-- C10: the effective number of concurrent downloads is clamped into 1..30:
below 1 is raised to 1, above 30 lowered to 30, and the launch is never
rejected on account of this option. -/
theorem c10_download_pool_clamped (n : Int) :
    1 ≤ clampDownloadFileMultiple n
    ∧ clampDownloadFileMultiple n ≤ 30
    ∧ (n < 1 → clampDownloadFileMultiple n = 1)
    ∧ (30 < n → clampDownloadFileMultiple n = 30)
    ∧ (1 ≤ n → n ≤ 30 → clampDownloadFileMultiple n = n)
    ∧ effectiveDownloadConcurrency true n = Except.ok (clampDownloadFileMultiple n) := by
  have hcl : clampDownloadFileMultiple n = if n < 1 then 1 else if 30 < n then 30 else n := by
    by_cases h1 : n < 1
    · simp only [clampDownloadFileMultiple, if_pos h1]
      norm_num
    · simp only [clampDownloadFileMultiple, if_neg h1]
  have hA : n < 1 → clampDownloadFileMultiple n = 1 := fun h => by
    rw [hcl, if_pos h]
  have hB : 30 < n → clampDownloadFileMultiple n = 30 := fun h => by
    rw [hcl, if_neg (by omega), if_pos h]
  have hC : 1 ≤ n → n ≤ 30 → clampDownloadFileMultiple n = n := fun h1 h2 => by
    rw [hcl, if_neg (by omega), if_neg (by omega)]
  have hlow : 1 ≤ clampDownloadFileMultiple n := by
    rcases lt_or_le n 1 with h | h
    · rw [hA h]
    · rcases le_or_lt n 30 with h2 | h2
      · rw [hC h h2]; omega
      · rw [hB h2]; omega
  have hhigh : clampDownloadFileMultiple n ≤ 30 := by
    rcases lt_or_le n 1 with h | h
    · rw [hA h]; omega
    · rcases le_or_lt n 30 with h2 | h2
      · rw [hC h h2]; omega
      · rw [hB h2]
  exact ⟨hlow, hhigh, hA, hB, hC, by simp [effectiveDownloadConcurrency]⟩

/-- Witness for C10 at concrete values 0, 31 and 7. -/
theorem c10_download_pool_clamped_witness :
    clampDownloadFileMultiple 0 = 1
    ∧ clampDownloadFileMultiple 31 = 30
    ∧ clampDownloadFileMultiple 7 = 7 :=
  ⟨(c10_download_pool_clamped 0).2.2.1 (by decide),
   (c10_download_pool_clamped 31).2.2.2.1 (by decide),
   (c10_download_pool_clamped 7).2.2.2.2.1 (by decide) (by decide)⟩

end MCLauncher

namespace MCLauncher

/-! ## JS `replaceAll`, modelled with an explicit scanner

`replaceAllCore p ps repl s` scans `s` left to right; whenever the pattern
`p :: ps` is an initial segment of the remaining input it emits `repl` and
continues after the match (JS `replaceAll` semantics: leftmost,
non-overlapping).  `occursIn pat s` says `pat` appears contiguously in `s`. -/

def startsWithSeq : List Char → List Char → Bool
  | [], _ => true
  | _ :: _, [] => false
  | p :: ps, c :: cs => p == c && startsWithSeq ps cs

theorem startsWithSeq_iff (pat s : List Char) :
    startsWithSeq pat s = true ↔ ∃ r, s = pat ++ r := by
  induction pat generalizing s with
  | nil => simp [startsWithSeq]
  | cons p ps ih =>
    cases s with
    | nil => simp [startsWithSeq]
    | cons c cs =>
      simp only [startsWithSeq, Bool.and_eq_true, beq_iff_eq]
      rw [ih]
      constructor
      · rintro ⟨hpc, r, hr⟩
        exact ⟨r, by rw [List.cons_append, hr, hpc]⟩
      · rintro ⟨r, hr⟩
        rw [List.cons_append] at hr
        injection hr with h1 h2
        exact ⟨h1.symm, r, h2⟩

/-- The scanner behind `replaceAll`.  The first argument after the pattern
and replacement is fuel; callers pass the input length, which is enough
because every step consumes at least one character, so the fuel-exhausted
arm is never reached from `jsReplaceAll`. -/
def replaceAllCore (p : Char) (ps repl : List Char) : Nat → List Char → List Char
  | _, [] => []
  | 0, s => s
  | fuel + 1, c :: rest =>
    if startsWithSeq (p :: ps) (c :: rest) then
      repl ++ replaceAllCore p ps repl fuel (rest.drop ps.length)
    else
      c :: replaceAllCore p ps repl fuel rest

theorem replaceAllCore_nil (p : Char) (ps repl : List Char) (fuel : Nat) :
    replaceAllCore p ps repl fuel [] = [] := by
  cases fuel <;> rfl

theorem replaceAllCore_cons (p : Char) (ps repl : List Char) (fuel : Nat)
    (c : Char) (rest : List Char) :
    replaceAllCore p ps repl (fuel + 1) (c :: rest) =
      if startsWithSeq (p :: ps) (c :: rest) then
        repl ++ replaceAllCore p ps repl fuel (rest.drop ps.length)
      else
        c :: replaceAllCore p ps repl fuel rest := rfl

/-- Contiguous occurrence of `pat` inside `s`. -/
def occursIn (pat s : List Char) : Prop := ∃ l r, s = l ++ pat ++ r

theorem occursIn_refl (s : List Char) : occursIn s s := ⟨[], [], by simp⟩

theorem occursIn_trans {t u s : List Char} (h1 : occursIn t u) (h2 : occursIn u s) :
    occursIn t s := by
  obtain ⟨l1, r1, rfl⟩ := h1
  obtain ⟨l2, r2, rfl⟩ := h2
  exact ⟨l2 ++ l1, r1 ++ r2, by simp⟩

theorem occursIn_cons {u : List Char} (c : Char) {xs : List Char} (h : occursIn u xs) :
    occursIn u (c :: xs) := by
  obtain ⟨l, r, rfl⟩ := h
  exact ⟨c :: l, r, by simp⟩

theorem occursIn_of_startsWith {t s : List Char} (h : startsWithSeq t s = true) :
    occursIn t s := by
  obtain ⟨r, rfl⟩ := (startsWithSeq_iff t s).mp h
  exact ⟨[], r, by simp⟩

theorem eq_nil_of_occursIn_nil {t : List Char} (h : occursIn t []) : t = [] := by
  obtain ⟨l, r, hl⟩ := h
  have hlen := congrArg List.length hl
  simp at hlen
  exact List.eq_nil_of_length_eq_zero (by omega)

theorem mem_of_occursIn {t s : List Char} (h : occursIn t s) : ∀ x ∈ t, x ∈ s := by
  obtain ⟨l, r, rfl⟩ := h
  intro x hx
  simp [hx]

theorem eq_singleton_of_occursIn {t : List Char} {c : Char} (ht : t ≠ [])
    (h : occursIn t [c]) : t = [c] := by
  obtain ⟨l, r, hl⟩ := h
  have hlen := congrArg List.length hl
  simp at hlen
  have htpos : 0 < t.length := List.length_pos.mpr ht
  have hl0 : l = [] := List.eq_nil_of_length_eq_zero (by omega)
  have hr0 : r = [] := List.eq_nil_of_length_eq_zero (by omega)
  subst hl0; subst hr0
  simpa using hl.symm

/-- Where an occurrence inside an append can sit: wholly in the left part,
wholly in the right part, or spanning the seam. -/
theorem occursIn_append_cases (t a b : List Char) (h : occursIn t (a ++ b)) :
    occursIn t a ∨ occursIn t b ∨
      ∃ t1 t2, t = t1 ++ t2 ∧ t1 ≠ [] ∧ t2 ≠ [] ∧
        (∃ l, a = l ++ t1) ∧ (∃ r, b = t2 ++ r) := by
  obtain ⟨l, r, hl⟩ := h
  rw [List.append_assoc] at hl
  rcases List.append_eq_append_iff.mp hl with ⟨a', ha1, ha2⟩ | ⟨c', hc1, hc2⟩
  · exact Or.inr (Or.inl ⟨a', r, by rw [ha2, List.append_assoc]⟩)
  · rcases List.append_eq_append_iff.mp hc2 with ⟨w, hw1, hw2⟩ | ⟨w, hw1, hw2⟩
    · exact Or.inl ⟨l, w, by rw [hc1, hw1, List.append_assoc]⟩
    · rcases eq_or_ne c' [] with hce | hce
      · subst hce
        simp at hw1 hc1
        exact Or.inr (Or.inl ⟨[], r, by rw [hw2, hw1]; rfl⟩)
      · rcases eq_or_ne w [] with hwe | hwe
        · subst hwe
          simp at hw1 hw2
          exact Or.inl ⟨l, [], by rw [hc1, hw1]; simp⟩
        · exact Or.inr (Or.inr ⟨c', w, hw1, hce, hwe, ⟨l, hc1⟩, ⟨r, hw2⟩⟩)

/-- An occurrence in `x :: xs` either starts at the head or lies in `xs`. -/
theorem occursIn_cons_cases (t : List Char) (x : Char) (xs : List Char)
    (h : occursIn t (x :: xs)) :
    startsWithSeq t (x :: xs) = true ∨ occursIn t xs := by
  obtain ⟨l, r, hl⟩ := h
  cases l with
  | nil =>
    left
    exact (startsWithSeq_iff t (x :: xs)).mpr ⟨r, by simpa using hl⟩
  | cons l0 ls =>
    right
    rw [List.cons_append, List.cons_append] at hl
    injection hl with h1 h2
    exact ⟨ls, r, by rw [h2, List.append_assoc]⟩

end MCLauncher

namespace MCLauncher

/-- When a nonempty q free of replacement characters is an initial segment of
the scanner output, q was already an initial segment of the input, and the
scanned pattern cannot occur inside it. -/
theorem startsWith_replaceAllCore (p : Char) (ps repl : List Char) (hrepl : repl ≠ []) :
    ∀ (n : Nat) (s q : List Char), s.length ≤ n → q ≠ [] →
      (∀ c ∈ repl, c ∉ q) →
      startsWithSeq q (replaceAllCore p ps repl n s) = true →
      startsWithSeq q s = true ∧ ¬ occursIn (p :: ps) q := by
  intro n
  induction n with
  | zero =>
    intro s q hs hq hdisj hsw
    have hsnil : s = [] := List.eq_nil_of_length_eq_zero (Nat.le_zero.mp hs)
    subst hsnil
    rw [replaceAllCore_nil] at hsw
    cases q with
    | nil => exact absurd rfl hq
    | cons q0 q' => simp [startsWithSeq] at hsw
  | succ n ih =>
    intro s q hs hq hdisj hsw
    cases s with
    | nil =>
      rw [replaceAllCore_nil] at hsw
      cases q with
      | nil => exact absurd rfl hq
      | cons q0 q' => simp [startsWithSeq] at hsw
    | cons c rest =>
      rw [replaceAllCore_cons] at hsw
      by_cases hpre : startsWithSeq (p :: ps) (c :: rest) = true
      · rw [if_pos hpre] at hsw
        cases q with
        | nil => exact absurd rfl hq
        | cons q0 q' =>
          cases hrepl' : repl with
          | nil => exact absurd hrepl' hrepl
          | cons r0 rs =>
            rw [hrepl'] at hsw
            simp only [List.cons_append, startsWithSeq, Bool.and_eq_true, beq_iff_eq] at hsw
            exact absurd (by simp [hsw.1]) (hdisj r0 (by simp [hrepl']))
      · rw [if_neg hpre] at hsw
        cases q with
        | nil => exact absurd rfl hq
        | cons q0 q' =>
          simp only [startsWithSeq, Bool.and_eq_true, beq_iff_eq] at hsw
          obtain ⟨hq0, hsw'⟩ := hsw
          by_cases hq' : q' = []
          · subst hq'
            constructor
            · simp [startsWithSeq, hq0]
            · intro hocc
              have hpq : (p :: ps) = [q0] :=
                eq_singleton_of_occursIn (by simp) hocc
              rw [hpq] at hpre
              exact hpre (by simp [startsWithSeq, hq0])
          · have hdisj' : ∀ c' ∈ repl, c' ∉ q' := fun c' hc' hmem =>
              hdisj c' hc' (by simp [hmem])
            have hrest : rest.length ≤ n := by
              simp only [List.length_cons] at hs; omega
            obtain ⟨h1, h2⟩ := ih rest q' hrest hq' hdisj' hsw'
            have hqpre : startsWithSeq (q0 :: q') (c :: rest) = true := by
              simp [startsWithSeq, hq0, h1]
            refine ⟨hqpre, ?_⟩
            intro hocc
            rcases occursIn_cons_cases (p :: ps) q0 q' hocc with hswp | hocc'
            · obtain ⟨r1, hr1⟩ := (startsWithSeq_iff _ _).mp hswp
              obtain ⟨r2, hr2⟩ := (startsWithSeq_iff _ _).mp hqpre
              refine hpre ((startsWithSeq_iff _ _).mpr ⟨r1 ++ r2, ?_⟩)
              rw [hr2, hr1]
              simp
            · exact h2 hocc'

/-- Occurrences of a nonempty replacement-free token in the scanner output
come from pattern-free contiguous pieces of the input. -/
theorem occursIn_replaceAllCore (p : Char) (ps repl : List Char) (hrepl : repl ≠ []) :
    ∀ (n : Nat) (s t : List Char), s.length ≤ n → t ≠ [] →
      (∀ c ∈ repl, c ∉ t) →
      occursIn t (replaceAllCore p ps repl n s) →
      ∃ u, occursIn t u ∧ occursIn u s ∧ ¬ occursIn (p :: ps) u := by
  intro n
  induction n with
  | zero =>
    intro s t hs ht hdisj hocc
    have hsnil : s = [] := List.eq_nil_of_length_eq_zero (Nat.le_zero.mp hs)
    subst hsnil
    rw [replaceAllCore_nil] at hocc
    exact absurd (eq_nil_of_occursIn_nil hocc) ht
  | succ n ih =>
    intro s t hs ht hdisj hocc
    cases s with
    | nil =>
      rw [replaceAllCore_nil] at hocc
      exact absurd (eq_nil_of_occursIn_nil hocc) ht
    | cons c rest =>
      rw [replaceAllCore_cons] at hocc
      by_cases hpre : startsWithSeq (p :: ps) (c :: rest) = true
      · rw [if_pos hpre] at hocc
        rcases occursIn_append_cases t repl _ hocc with h | h | h
        · cases t with
          | nil => exact absurd rfl ht
          | cons t0 t' =>
            exact absurd (mem_of_occursIn h t0 (by simp))
              (fun hm => hdisj t0 hm (by simp))
        · have hle : (rest.drop ps.length).length ≤ n := by
            simp only [List.length_drop]
            simp only [List.length_cons] at hs
            omega
          obtain ⟨u, hu1, hu2, hu3⟩ := ih _ t hle ht hdisj h
          refine ⟨u, hu1, ?_, hu3⟩
          have hsplit : occursIn (rest.drop ps.length) rest :=
            ⟨rest.take ps.length, [], by simp⟩
          exact occursIn_cons c (occursIn_trans hu2 hsplit)
        · obtain ⟨t1, t2, hteq, ht1, _, ⟨l, hla⟩, _⟩ := h
          cases t1 with
          | nil => exact absurd rfl ht1
          | cons t10 t1' =>
            have ht10t : t10 ∈ t := by simp [hteq]
            have ht10r : t10 ∈ repl := by rw [hla]; simp
            exact absurd ht10t (hdisj t10 ht10r)
      · rw [if_neg hpre] at hocc
        rcases occursIn_cons_cases t c _ hocc with hsw | h
        · have hswres : startsWithSeq t (replaceAllCore p ps repl (n + 1) (c :: rest)) = true := by
            rw [replaceAllCore_cons, if_neg hpre]
            exact hsw
          obtain ⟨hqs, hnp⟩ := startsWith_replaceAllCore p ps repl hrepl
            (n + 1) (c :: rest) t hs ht hdisj hswres
          exact ⟨t, occursIn_refl t, occursIn_of_startsWith hqs, hnp⟩
        · have hle : rest.length ≤ n := by
            simp only [List.length_cons] at hs; omega
          obtain ⟨u, hu1, hu2, hu3⟩ := ih rest t hle ht hdisj h
          exact ⟨u, hu1, occursIn_cons c hu2, hu3⟩

end MCLauncher

namespace MCLauncher

/-- JS `String.prototype.replaceAll(pat, repl)`.  With an empty pattern JS
inserts the replacement before every character and at the end
(for example replacing the empty string by a dash in the string abc gives
-a-b-c-); with a nonempty pattern it is the leftmost non-overlapping
scanner `replaceAllCore`. -/
def jsReplaceAll (s pat repl : String) : String :=
  match pat.data with
  | [] => repl ++ String.mk ((s.data.map (fun c => c :: repl.data)).flatten)
  | p :: ps => String.mk (replaceAllCore p ps repl.data s.data.length s.data)

theorem jsReplaceAll_data (s pat repl : String) (p : Char) (ps : List Char)
    (hp : pat.data = p :: ps) :
    (jsReplaceAll s pat repl).data
      = replaceAllCore p ps repl.data s.data.length s.data := by
  unfold jsReplaceAll
  split
  · next heq => rw [heq] at hp; exact absurd hp (by simp)
  · next p' ps' heq =>
    rw [heq] at hp
    injection hp with h1 h2
    subst h1; subst h2
    rfl

/-- After replacing every occurrence of a nonempty pattern by a nonempty
replacement sharing no character with it, the pattern no longer occurs. -/
theorem jsReplaceAll_no_pattern (s pat repl : String)
    (hr : repl.data ≠ []) (hdisj : ∀ c ∈ repl.data, c ∉ pat.data) :
    pat.data ≠ [] → ¬ occursIn pat.data (jsReplaceAll s pat repl).data := by
  intro hp hocc
  cases hpd : pat.data with
  | nil => exact hp hpd
  | cons p ps =>
    rw [jsReplaceAll_data s pat repl p ps hpd] at hocc
    obtain ⟨u, hu1, _, hu3⟩ := occursIn_replaceAllCore p ps repl.data hr
      s.data.length s.data pat.data (le_refl _) hp hdisj hocc
    rw [hpd] at hu1
    exact hu3 hu1

/-- Replacing a nonempty pattern by a nonempty replacement that shares no
character with a token cannot introduce a new occurrence of that token. -/
theorem jsReplaceAll_preserves_absence (s pat repl t : String)
    (hp : pat.data ≠ []) (hr : repl.data ≠ [])
    (ht : t.data ≠ []) (hdisj : ∀ c ∈ repl.data, c ∉ t.data)
    (habs : ¬ occursIn t.data s.data) :
    ¬ occursIn t.data (jsReplaceAll s pat repl).data := by
  intro hocc
  cases hpd : pat.data with
  | nil => exact hp hpd
  | cons p ps =>
    rw [jsReplaceAll_data s pat repl p ps hpd] at hocc
    obtain ⟨u, hu1, hu2, _⟩ := occursIn_replaceAllCore p ps repl.data hr
      s.data.length s.data t.data (le_refl _) ht hdisj hocc
    exact habs (occursIn_trans hu1 hu2)

/-! ## Credential redaction in `Launch.start` (src/Launcher/Launch.js 153-159)

The assembled command line is joined with spaces; then `replaceAll` is
applied for the access token, the client token, the uuid and the Xbox xuid
(each replaced by eight question marks), and finally every occurrence of
the root path followed by a slash is removed.  When no Xbox account is
attached, `this.options.authenticator?.xboxAccount?.xuid` is `undefined`
and JS `replaceAll(undefined, ...)` coerces the pattern to the literal
string "undefined"; the embedding keeps that behaviour.  The display name
(`authenticator.name`) is never touched. -/

structure Authenticator where
  name : String
  uuid : String
  access_token : String
  client_token : String
  xuid : Option String
deriving DecidableEq, Repr

/-- Embedding of the four credential `replaceAll` calls in `Launch.start`
(src/Launcher/Launch.js lines 153-157). -/
def redactCredentialStage (args : List String) (auth : Authenticator) : String :=
  let s0 := String.intercalate " " args
  let s1 := jsReplaceAll s0 auth.access_token "????????"
  let s2 := jsReplaceAll s1 auth.client_token "????????"
  let s3 := jsReplaceAll s2 auth.uuid "????????"
  match auth.xuid with
  | some x => jsReplaceAll s3 x "????????"
  | none => jsReplaceAll s3 "undefined" "????????"

/-- Embedding of the emitted log line of `Launch.start` (src/Launcher/Launch.js
lines 153-159): credential replacements, then the root-path strip. -/
def redactedCommandLine (args : List String) (auth : Authenticator)
    (rootPath : String) : String :=
  jsReplaceAll (redactCredentialStage args auth) (rootPath ++ "/") ""

end MCLauncher

namespace MCLauncher

/-- Concrete credential record used to test the redaction claim. -/
def c3AuthExample : Authenticator :=
  { name := "Steve", uuid := "11112222", access_token := "secrettoken",
    client_token := "clienttok", xuid := some "9999" }

/-- C3 counterexample: the emitted log line still contains the credential
display name.  With display name "Steve" on the command line, the redacted
line "--username Steve --uuid ???????? --accessToken ????????" contains an
occurrence of the display name, so the claim that no credential field
(including the display name) occurs is false. -/
theorem c3_counterexample :
    occursIn ("Steve" : String).data
      (redactedCommandLine
        ["--username", "Steve", "--uuid", "11112222", "--accessToken", "secrettoken"]
        c3AuthExample "/home/user/.Minecraft").data
    ∧ c3AuthExample.name = "Steve" := by
  refine ⟨⟨("--username " : String).data,
    (" --uuid ???????? --accessToken ????????" : String).data, ?_⟩, rfl⟩
  decide

/-- C3 amended: the emitted log line replaces every occurrence of the
session access token, the client token, the uuid and (when present) the
Xbox xuid by the eight-character mask, so that none of those four fields
occurs in the line before the root-path strip; the strip is applied
afterwards; the display name is not redacted.  The hypotheses say the
fields are nonempty and do not themselves contain the mask character. -/
theorem c3_credential_redaction (args : List String) (auth : Authenticator)
    (rootPath : String)
    (ha1 : auth.access_token.data ≠ []) (ha2 : '?' ∉ auth.access_token.data)
    (hc1 : auth.client_token.data ≠ []) (hc2 : '?' ∉ auth.client_token.data)
    (hu1 : auth.uuid.data ≠ []) (hu2 : '?' ∉ auth.uuid.data)
    (hxne : ∀ x, auth.xuid = some x → x.data ≠ []) :
    ¬ occursIn auth.access_token.data (redactCredentialStage args auth).data
    ∧ ¬ occursIn auth.client_token.data (redactCredentialStage args auth).data
    ∧ ¬ occursIn auth.uuid.data (redactCredentialStage args auth).data
    ∧ (∀ x, auth.xuid = some x → x.data ≠ [] → '?' ∉ x.data →
        ¬ occursIn x.data (redactCredentialStage args auth).data)
    ∧ redactedCommandLine args auth rootPath
        = jsReplaceAll (redactCredentialStage args auth) (rootPath ++ "/") "" := by
  have hRne : ("????????" : String).data ≠ [] := by decide
  have hdisj : ∀ (t : String), '?' ∉ t.data →
      ∀ c ∈ ("????????" : String).data, c ∉ t.data := by
    intro t ht c hc
    have hq : c = '?' := by
      have : ("????????" : String).data = List.replicate 8 '?' := by decide
      rw [this] at hc
      exact List.eq_of_mem_replicate hc
    rw [hq]
    exact ht
  have hund : ("undefined" : String).data ≠ [] := by decide
  set s0 := String.intercalate " " args with hs0
  set s1 := jsReplaceAll s0 auth.access_token "????????" with hs1
  set s2 := jsReplaceAll s1 auth.client_token "????????" with hs2
  set s3 := jsReplaceAll s2 auth.uuid "????????" with hs3
  have hstage : redactCredentialStage args auth =
      match auth.xuid with
      | some x => jsReplaceAll s3 x "????????"
      | none => jsReplaceAll s3 "undefined" "????????" := rfl
  have hA1 : ¬ occursIn auth.access_token.data s1.data :=
    jsReplaceAll_no_pattern s0 auth.access_token "????????" hRne
      (hdisj _ ha2) ha1
  have hA2 : ¬ occursIn auth.access_token.data s2.data :=
    jsReplaceAll_preserves_absence s1 auth.client_token "????????"
      auth.access_token hc1 hRne ha1 (hdisj _ ha2) hA1
  have hC2 : ¬ occursIn auth.client_token.data s2.data :=
    jsReplaceAll_no_pattern s1 auth.client_token "????????" hRne
      (hdisj _ hc2) hc1
  have hA3 : ¬ occursIn auth.access_token.data s3.data :=
    jsReplaceAll_preserves_absence s2 auth.uuid "????????"
      auth.access_token hu1 hRne ha1 (hdisj _ ha2) hA2
  have hC3 : ¬ occursIn auth.client_token.data s3.data :=
    jsReplaceAll_preserves_absence s2 auth.uuid "????????"
      auth.client_token hu1 hRne hc1 (hdisj _ hc2) hC2
  have hU3 : ¬ occursIn auth.uuid.data s3.data :=
    jsReplaceAll_no_pattern s2 auth.uuid "????????" hRne (hdisj _ hu2) hu1
  cases hx : auth.xuid with
  | none =>
    rw [hx] at hstage
    refine ⟨?_, ?_, ?_, ?_, rfl⟩
    · rw [hstage]
      exact jsReplaceAll_preserves_absence s3 "undefined" "????????"
        auth.access_token hund hRne ha1 (hdisj _ ha2) hA3
    · rw [hstage]
      exact jsReplaceAll_preserves_absence s3 "undefined" "????????"
        auth.client_token hund hRne hc1 (hdisj _ hc2) hC3
    · rw [hstage]
      exact jsReplaceAll_preserves_absence s3 "undefined" "????????"
        auth.uuid hund hRne hu1 (hdisj _ hu2) hU3
    · intro x hxx
      exact absurd hxx (by simp)
  | some x =>
    have hxe : x.data ≠ [] := hxne x hx
    rw [hx] at hstage
    refine ⟨?_, ?_, ?_, ?_, rfl⟩
    · rw [hstage]
      exact jsReplaceAll_preserves_absence s3 x "????????"
        auth.access_token hxe hRne ha1 (hdisj _ ha2) hA3
    · rw [hstage]
      exact jsReplaceAll_preserves_absence s3 x "????????"
        auth.client_token hxe hRne hc1 (hdisj _ hc2) hC3
    · rw [hstage]
      exact jsReplaceAll_preserves_absence s3 x "????????"
        auth.uuid hxe hRne hu1 (hdisj _ hu2) hU3
    · intro x' hxx hx1 hx2
      have hxx' : x = x' := by injection hxx
      rw [hstage, ← hxx']
      exact jsReplaceAll_no_pattern s3 x "????????" hRne (hdisj _ (hxx' ▸ hx2)) hxe

/-- Witness for C3 at a concrete credential and command line. -/
theorem c3_credential_redaction_witness :
    ¬ occursIn ("tok123" : String).data
      (redactCredentialStage ["--accessToken", "tok123", "--uuid", "u-1"]
        { name := "Alex", uuid := "u-1", access_token := "tok123",
          client_token := "ct-1", xuid := none }).data :=
  (c3_credential_redaction ["--accessToken", "tok123", "--uuid", "u-1"]
    { name := "Alex", uuid := "u-1", access_token := "tok123",
      client_token := "ct-1", xuid := none } "/root"
    (by decide) (by decide) (by decide) (by decide) (by decide) (by decide)
    (fun x hx => by simp at hx)).1

end MCLauncher

namespace MCLauncher

/-! ## Process supervision in `Launch.start` (src/Launcher/Launch.js 161-212)

The `close` handler of the spawned process (lines 189-201) ends the log
stream, archives `latest.log` under a timestamp name when it exists, clears
`minecraftProcess`, and emits a `close` event whose payload is the fixed
string "Minecraft closed" — the numeric exit code passed to the handler is
never used.  `getPID` (lines 64-66) returns the pid or null, with JS `||`
turning a pid of 0 into null. -/

inductive LaunchEvent where
  | data (chunk : String)
  | close (payload : String)
  | errorEvent (message : String)
deriving DecidableEq, Repr

structure SupervisorState where
  minecraftProcess : Option Nat
  logFiles : List String
deriving DecidableEq, Repr

/-- Embedding of `Launch.getPID` (src/Launcher/Launch.js lines 64-66):
`this.minecraftProcess?.pid || null`. -/
def getPID (st : SupervisorState) : Option Nat :=
  match st.minecraftProcess with
  | some p => if p = 0 then none else some p
  | none => none

structure CloseResult where
  state : SupervisorState
  events : List LaunchEvent
deriving DecidableEq, Repr

/-- Embedding of the close handler of the spawned process
(src/Launcher/Launch.js lines 189-201).  `code` is the exit code of the child as
delivered by Node; `timestamp` stands for the formatted
`new Date().toISOString()...` value computed in the handler. -/
def onProcessClose (st : SupervisorState) (code : Int) (timestamp : String) :
    CloseResult :=
  let archived : Bool := decide ("latest.log" ∈ st.logFiles)
  let files := if archived then st.logFiles ++ [timestamp ++ ".log"] else st.logFiles
  { state := { minecraftProcess := none, logFiles := files }
  , events :=
      (if archived then
        [LaunchEvent.data ("Game logs archived as: " ++ timestamp ++ ".log\n")]
      else []) ++ [LaunchEvent.close "Minecraft closed"] }

/-- C4 counterexample: the `close` event does not carry the exit code.  At
exit code 42 the emitted events contain `close "Minecraft closed"` and no
event mentioning 42; indeed the whole result is independent of the exit
code, so the payload cannot be the exit code of the child. -/
theorem c4_counterexample :
    (LaunchEvent.close "Minecraft closed")
      ∈ (onProcessClose { minecraftProcess := some 7, logFiles := ["latest.log"] }
          42 "2025-01-01_00-00-00").events
    ∧ (LaunchEvent.close "42")
      ∉ (onProcessClose { minecraftProcess := some 7, logFiles := ["latest.log"] }
          42 "2025-01-01_00-00-00").events
    ∧ onProcessClose { minecraftProcess := some 7, logFiles := ["latest.log"] }
        42 "2025-01-01_00-00-00"
      = onProcessClose { minecraftProcess := some 7, logFiles := ["latest.log"] }
        0 "2025-01-01_00-00-00" := by
  refine ⟨?_, ?_, rfl⟩ <;> decide

/-- C4 amended: when the game process exits the supervisor archives
`latest.log` (when it exists) to a timestamp-named file in the same logs
directory, emits a `close` event carrying the fixed message
"Minecraft closed" (not the exit code), and releases the handle so that
`getPID` returns null afterwards. -/
theorem c4_on_close (st : SupervisorState) (code : Int) (timestamp : String) :
    ("latest.log" ∈ st.logFiles →
      (timestamp ++ ".log") ∈ (onProcessClose st code timestamp).state.logFiles
      ∧ (onProcessClose st code timestamp).events
          = [LaunchEvent.data ("Game logs archived as: " ++ timestamp ++ ".log\n"),
             LaunchEvent.close "Minecraft closed"])
    ∧ ("latest.log" ∉ st.logFiles →
      (onProcessClose st code timestamp).events = [LaunchEvent.close "Minecraft closed"])
    ∧ getPID (onProcessClose st code timestamp).state = none
    ∧ (LaunchEvent.close "Minecraft closed") ∈ (onProcessClose st code timestamp).events := by
  by_cases h : "latest.log" ∈ st.logFiles
  · refine ⟨fun _ => ⟨?_, ?_⟩, fun hn => absurd h hn, ?_, ?_⟩ <;>
      simp [onProcessClose, getPID, h]
  · refine ⟨fun hyes => absurd hyes h, fun _ => ?_, ?_, ?_⟩ <;>
      simp [onProcessClose, getPID, h]

/-- Witness for C4 at a concrete state with and without `latest.log`. -/
theorem c4_on_close_witness :
    ("2025-01-01_00-00-00.log")
      ∈ (onProcessClose { minecraftProcess := some 9, logFiles := ["latest.log"] }
          3 "2025-01-01_00-00-00").state.logFiles
    ∧ getPID (onProcessClose { minecraftProcess := some 9, logFiles := ["latest.log"] }
          3 "2025-01-01_00-00-00").state = none :=
  ⟨((c4_on_close { minecraftProcess := some 9, logFiles := ["latest.log"] }
      3 "2025-01-01_00-00-00").1 (by decide)).1,
   (c4_on_close { minecraftProcess := some 9, logFiles := ["latest.log"] }
      3 "2025-01-01_00-00-00").2.2.1⟩

end MCLauncher

namespace MCLauncher

/-! ## Maven coordinate parsing (src/nw-launcher/Launcher/utils/Index.js 20-38)

`getPathLibraries(main, nativeString, forceExt)` splits the coordinate on
the colon character.  JS array indexing past the end yields `undefined`,
which is falsy in the conditional and prints as the string "undefined"
inside a template literal; `jsTruthyAt`/`jsAt` model both behaviours.  The
`nativeString` defaulting to the empty string and `forceExt` to the .jar
extension treat an absent or empty argument alike, as the JS or-fallback does. -/

def jsAt (l : List (List Char)) (i : Nat) : List Char :=
  (l[i]?).getD ("undefined" : String).data

def jsTruthyAt (l : List (List Char)) (i : Nat) : Bool :=
  match l[i]? with
  | none => false
  | some s => !s.isEmpty

structure LibPath where
  path : String
  name : String
  version : String
deriving DecidableEq, Repr

/-- Embedding of `getPathLibraries`
(src/nw-launcher/Launcher/utils/Index.js lines 20-38). -/
def getPathLibraries (main : String) (nativeString forceExt : Option String) : LibPath :=
  let libSplit := splitOnCh ':' main.data
  let fileName :=
    if jsTruthyAt libSplit 3 then jsAt libSplit 2 ++ '-' :: jsAt libSplit 3
    else jsAt libSplit 2
  let finalFileName :=
    if '@' ∈ fileName then replaceFirstCh '@' '.' fileName
    else fileName ++ (nativeString.getD "").data ++ (forceExt.getD ".jar").data
  let pathLib :=
    replaceAllCh '.' '/' (jsAt libSplit 0)
      ++ '/' :: jsAt libSplit 1
      ++ '/' :: ((splitOnCh '@' (jsAt libSplit 2)).headD [])
  { path := String.mk pathLib
  , name := String.mk (jsAt libSplit 1 ++ '-' :: finalFileName)
  , version := String.mk (jsAt libSplit 2) }

/-- C2: for a three-segment coordinate the directory path converts dots to
slashes only in the group segment and drops an at-sign extension marker
from the version directory; the file name is artifact-version with the
default .jar extension, an at-sign extension replacing it when present;
for a four-segment coordinate the classifier is appended to the version in
the file name; the version field always returns the version segment. -/
theorem c2_getPathLibraries :
    (∀ (main : String) (g a v : List Char) (nat ext : Option String),
      splitOnCh ':' main.data = [g, a, v] →
      (getPathLibraries main nat ext).version = String.mk v
      ∧ (getPathLibraries main nat ext).path
          = String.mk (replaceAllCh '.' '/' g ++ '/' :: a ++ '/' :: ((splitOnCh '@' v).headD []))
      ∧ ('@' ∉ v →
          (getPathLibraries main nat ext).name
            = String.mk (a ++ '-' :: (v ++ (nat.getD "").data ++ (ext.getD ".jar").data))
          ∧ (splitOnCh '@' v).headD [] = v)
      ∧ (∀ bare extv, splitOnCh '@' v = [bare, extv] →
          (getPathLibraries main nat ext).name
            = String.mk (a ++ '-' :: (bare ++ '.' :: extv))
          ∧ (splitOnCh '@' v).headD [] = bare))
    ∧ (∀ (main : String) (g a v cls : List Char) (nat ext : Option String),
      splitOnCh ':' main.data = [g, a, v, cls] → cls ≠ [] →
      (getPathLibraries main nat ext).version = String.mk v
      ∧ (getPathLibraries main nat ext).path
          = String.mk (replaceAllCh '.' '/' g ++ '/' :: a ++ '/' :: ((splitOnCh '@' v).headD []))
      ∧ ('@' ∉ v → '@' ∉ cls →
          (getPathLibraries main nat ext).name
            = String.mk (a ++ '-' :: (v ++ '-' :: cls
                ++ (nat.getD "").data ++ (ext.getD ".jar").data)))) := by
  constructor
  · intro main g a v nat ext hsplit
    have h3 : (splitOnCh ':' main.data)[3]? = none := by rw [hsplit]; rfl
    have h2 : (splitOnCh ':' main.data)[2]? = some v := by rw [hsplit]; rfl
    have h1 : (splitOnCh ':' main.data)[1]? = some a := by rw [hsplit]; rfl
    have h0 : (splitOnCh ':' main.data)[0]? = some g := by rw [hsplit]; rfl
    refine ⟨?_, ?_, ?_, ?_⟩
    · simp [getPathLibraries, jsAt, h2]
    · simp [getPathLibraries, jsAt, h0, h1, h2]
    · intro hv
      constructor
      · simp [getPathLibraries, jsAt, jsTruthyAt, h1, h2, h3, hv]
      · rw [splitOnCh_of_not_mem '@' v hv]
        rfl
    · intro bare extv hbe
      obtain ⟨hveq, hbne, _⟩ := splitOnCh_eq_pair '@' v bare extv hbe
      constructor
      · have hmem : '@' ∈ v := by rw [hveq]; simp
        have hrep : replaceFirstCh '@' '.' v = bare ++ '.' :: extv := by
          rw [hveq]
          exact replaceFirstCh_append_not_mem '@' '.' bare extv hbne
        simp [getPathLibraries, jsAt, jsTruthyAt, h1, h2, h3, hmem, hrep]
      · rw [hbe]
        rfl
  · intro main g a v cls nat ext hsplit hcls
    have h3 : (splitOnCh ':' main.data)[3]? = some cls := by rw [hsplit]; rfl
    have h2 : (splitOnCh ':' main.data)[2]? = some v := by rw [hsplit]; rfl
    have h1 : (splitOnCh ':' main.data)[1]? = some a := by rw [hsplit]; rfl
    have h0 : (splitOnCh ':' main.data)[0]? = some g := by rw [hsplit]; rfl
    refine ⟨?_, ?_, ?_⟩
    · simp [getPathLibraries, jsAt, h2]
    · simp [getPathLibraries, jsAt, h0, h1, h2]
    · intro hv hc
      have hne : '@' ∉ (v ++ '-' :: cls) := by
        simp only [List.mem_append, List.mem_cons, not_or]
        exact ⟨hv, by decide, hc⟩
      have hclsne : cls.isEmpty = false := by
        simpa [List.isEmpty_iff] using hcls
      simp [getPathLibraries, jsAt, jsTruthyAt, h1, h2, h3, hne, hclsne]

/-- Witness for C2 at the concrete coordinates
net.minecraftforge:forge:1.19-41.0.63 (three segments),
g.h:art:1.0@zip (at-sign extension), and org.ow2.asm:asm:9.3:sources
(classifier). -/
theorem c2_getPathLibraries_witness :
    (getPathLibraries "net.minecraftforge:forge:1.19-41.0.63" none none).path
      = "net/minecraftforge/forge/1.19-41.0.63"
    ∧ (getPathLibraries "net.minecraftforge:forge:1.19-41.0.63" none none).name
      = "forge-1.19-41.0.63.jar"
    ∧ (getPathLibraries "g.h:art:1.0@zip" none none).name = "art-1.0.zip"
    ∧ (getPathLibraries "g.h:art:1.0@zip" none none).path = "g/h/art/1.0"
    ∧ (getPathLibraries "org.ow2.asm:asm:9.3:sources" none none).name
      = "asm-9.3-sources.jar"
    ∧ (getPathLibraries "org.ow2.asm:asm:9.3:sources" none none).version = "9.3" := by
  refine ⟨?_, ?_, ?_, ?_, ?_, ?_⟩
  · exact (c2_getPathLibraries.1 "net.minecraftforge:forge:1.19-41.0.63"
      "net.minecraftforge".data "forge".data "1.19-41.0.63".data none none
      (by decide)).2.1.trans (by decide)
  · exact ((c2_getPathLibraries.1 "net.minecraftforge:forge:1.19-41.0.63"
      "net.minecraftforge".data "forge".data "1.19-41.0.63".data none none
      (by decide)).2.2.1 (by decide)).1.trans (by decide)
  · exact ((c2_getPathLibraries.1 "g.h:art:1.0@zip"
      "g.h".data "art".data "1.0@zip".data none none
      (by decide)).2.2.2 "1.0".data "zip".data (by decide)).1.trans (by decide)
  · exact (c2_getPathLibraries.1 "g.h:art:1.0@zip"
      "g.h".data "art".data "1.0@zip".data none none
      (by decide)).2.1.trans (by decide)
  · exact ((c2_getPathLibraries.2 "org.ow2.asm:asm:9.3:sources"
      "org.ow2.asm".data "asm".data "9.3".data "sources".data none none
      (by decide) (by decide)).2.2 (by decide) (by decide)).trans (by decide)
  · exact (c2_getPathLibraries.2 "org.ow2.asm:asm:9.3:sources"
      "org.ow2.asm".data "asm".data "9.3".data "sources".data none none
      (by decide) (by decide)).1.trans (by decide)

end MCLauncher

namespace MCLauncher

/-! ## Library rule evaluation (src/nw-launcher/Launcher/utils/Index.js 169-199)

`skipLibrary` maps `process.platform` through `LibMap` and scans the rules.
When a `rules` array is present (a JS array, even empty, is truthy) the scan
STARTS from `shouldSkip = true`; an `allow` rule with a matching OS clause
or no OS clause clears the flag, a `disallow` rule with a matching OS
clause OR NO OS CLAUSE sets it; rules with a `features` clause are passed
over.  A library without a `rules` field is never skipped.  `osName = none`
models a rule without an `os` clause. -/

inductive RuleAction where
  | allow
  | disallow
deriving DecidableEq, Repr

structure LibRule where
  action : RuleAction
  osName : Option String
  hasFeatures : Bool
deriving DecidableEq, Repr

structure MCLibrary where
  name : String
  rules : Option (List LibRule)
  natives : Option (List (String × String))
  artifactPresent : Bool
  artifactUrl : String
  artifactSize : Nat
deriving DecidableEq, Repr

/-- Embedding of the `LibMap` table (platform → Mojang OS name). -/
def libMap (p : String) : Option String :=
  if p = "win32" then some "windows"
  else if p = "darwin" then some "osx"
  else if p = "linux" then some "linux"
  else none

def osClauseMatches (mojangOS : Option String) (r : LibRule) : Bool :=
  match r.osName with
  | some n => mojangOS == some n
  | none => false

/-- One iteration of the `for (const rule of lib.rules)` loop of
`skipLibrary` (src/nw-launcher/Launcher/utils/Index.js lines 181-197). -/
def ruleStep (mojangOS : Option String) (shouldSkip : Bool) (r : LibRule) : Bool :=
  if r.hasFeatures then shouldSkip
  else
    match r.action with
    | RuleAction.allow =>
      if osClauseMatches mojangOS r || r.osName.isNone then false else shouldSkip
    | RuleAction.disallow =>
      if osClauseMatches mojangOS r || r.osName.isNone then true else shouldSkip

/-- Embedding of `skipLibrary`
(src/nw-launcher/Launcher/utils/Index.js lines 169-199). -/
def skipLibrary (platform : String) (lib : MCLibrary) : Bool :=
  match lib.rules with
  | none => false
  | some rules => rules.foldl (ruleStep (libMap platform)) true

/-- Rule evaluation as claim C1 words it, for comparison with `skipLibrary`:
start ALLOWED unless some rule denies; an allow rule with no OS clause or a
matching OS clause allows; a disallow rule WHOSE OS CLAUSE MATCHES
disallows; rules with a features clause are passed over. -/
def specRuleStep (mojangOS : Option String) (allowed : Bool) (r : LibRule) : Bool :=
  if r.hasFeatures then allowed
  else
    match r.action with
    | RuleAction.allow =>
      if r.osName.isNone || osClauseMatches mojangOS r then true else allowed
    | RuleAction.disallow =>
      if osClauseMatches mojangOS r then false else allowed

/-- Claimed rule evaluation (see `specRuleStep`); starts from allowed. -/
def specRuleAllowed (platform : String) (lib : MCLibrary) : Bool :=
  match lib.rules with
  | none => true
  | some rules => rules.foldl (specRuleStep (libMap platform)) true

/-- Rule evaluation per the amended claim: start DISALLOWED when a rules
list is present; an allow rule with no OS clause or a matching clause
allows; a disallow rule with no OS clause or a matching clause disallows. -/
def amendedRuleStep (mojangOS : Option String) (allowed : Bool) (r : LibRule) : Bool :=
  if r.hasFeatures then allowed
  else
    match r.action with
    | RuleAction.allow =>
      if r.osName.isNone || osClauseMatches mojangOS r then true else allowed
    | RuleAction.disallow =>
      if r.osName.isNone || osClauseMatches mojangOS r then false else allowed

/-- Amended rule evaluation (see `amendedRuleStep`); starts from disallowed. -/
def amendedRuleAllowed (platform : String) (lib : MCLibrary) : Bool :=
  match lib.rules with
  | none => true
  | some rules => rules.foldl (amendedRuleStep (libMap platform)) false

theorem ruleStep_amended (m : Option String) (b : Bool) (r : LibRule) :
    ruleStep m b r = !(amendedRuleStep m (!b) r) := by
  unfold ruleStep amendedRuleStep
  by_cases hf : r.hasFeatures = true
  · simp [hf]
  · have hf' : r.hasFeatures = false := by simpa using hf
    rw [hf']
    cases hact : r.action <;> cases hx : osClauseMatches m r <;>
      cases hy : r.osName.isNone <;> cases b <;> simp [hx, hy]

theorem foldl_ruleStep_amended (m : Option String) (rules : List LibRule) :
    ∀ b, rules.foldl (ruleStep m) b = !(rules.foldl (amendedRuleStep m) (!b)) := by
  induction rules with
  | nil => intro b; simp
  | cons r rs ih =>
    intro b
    simp only [List.foldl_cons]
    have hstep : Bool.not (ruleStep m b r) = amendedRuleStep m (!b) r := by
      rw [ruleStep_amended m b r]
      simp
    rw [ih (ruleStep m b r), hstep]

end MCLauncher

namespace MCLauncher

/-! ## The Forge library download plan (src/unnamed/part_011, 228-304)

`ForgeMC.downloadLibraries` concatenates the version and install library
lists, removes duplicates by name keeping the first occurrence, and walks
the list: core Forge coordinates with a falsy artifact URL are passed over
when `skipForgeFilter` is set, rule-skipped libraries are passed over,
already-present files are passed over, and each remaining library is
queued from the first responding mirror, else its declared artifact URL;
with neither, an error event is emitted and nothing is queued.  `onDisk`
and `mirror` stand for `fs.existsSync` and `Downloader.checkMirror`. -/

/-- JS `String.prototype.includes`, on character lists. -/
def containsSeq (pat : List Char) : List Char → Bool
  | [] => pat.isEmpty
  | c :: rest => startsWithSeq pat (c :: rest) || containsSeq pat rest

def strIncludes (s sub : String) : Bool := containsSeq sub.data s.data

/-- The `skipForge` coordinate test of `ForgeMC.downloadLibraries`
(src/unnamed/part_011 lines 241-244). -/
def isForgeCoreLib (name : String) : Bool :=
  strIncludes name "net.minecraftforge:forge:"
    || strIncludes name "net.minecraftforge:minecraftforge:"

/-- Duplicate removal by `name` keeping the first occurrence
(src/unnamed/part_011 line 239). -/
def dedupeByName (libs : List MCLibrary) : List MCLibrary :=
  libs.foldl (fun acc l => if acc.any (fun t => t.name == l.name) then acc else acc ++ [l]) []

structure DLTask where
  url : String
  folder : String
  path : String
  name : String
  size : Nat
deriving DecidableEq, Repr

structure PlanEnv where
  platform : String
  rootPath : String
  skipForgeFilter : Bool
  onDisk : String → Bool
  mirror : String → Option (String × Nat)

/-- Lookup of `lib.natives[Lib[process.platform]]`
(src/unnamed/part_011 lines 257-260). -/
def nativesSuffixFor (mojangOS : Option String) (lib : MCLibrary) : Option String :=
  match lib.natives, mojangOS with
  | some m, some os => m.lookup os
  | _, _ => none

/-- JS truthiness of `!lib.downloads?.artifact?.url`. -/
def artifactUrlFalsy (lib : MCLibrary) : Bool :=
  !lib.artifactPresent || lib.artifactUrl == ""

/-- The per-library body of the `for (const lib of libraries)` loop of
`ForgeMC.downloadLibraries` (src/unnamed/part_011 lines 242-295), returning
the queued download task if any. -/
def planForgeLib (env : PlanEnv) (lib : MCLibrary) : Option DLTask :=
  if env.skipForgeFilter && isForgeCoreLib lib.name && artifactUrlFalsy lib then none
  else if skipLibrary env.platform lib then none
  else
    let suffix := nativesSuffixFor (libMap env.platform) lib
    let sufTruthy : Bool := match suffix with
      | some s => !s.isEmpty
      | none => false
    let sufVal : String := if sufTruthy then
        "-" ++ (match suffix with | some s => s | none => "")
      else ""
    let libInfo := getPathLibraries lib.name (some sufVal) none
    let libFolder := env.rootPath ++ "/libraries/" ++ libInfo.path
    let libFilePath := libFolder ++ "/" ++ libInfo.name
    if env.onDisk libFilePath then none
    else
      let baseURL := if sufTruthy then libInfo.path ++ "/"
        else libInfo.path ++ "/" ++ libInfo.name
      match env.mirror baseURL with
      | some (u, sz) =>
        some { url := u, folder := libFolder, path := libFilePath
             , name := libInfo.name, size := sz }
      | none =>
        if lib.artifactPresent then
          if lib.artifactUrl == "" then none
          else
            some { url := lib.artifactUrl, folder := libFolder, path := libFilePath
                 , name := libInfo.name, size := lib.artifactSize }
        else none

/-- The download plan of `ForgeMC.downloadLibraries`. -/
def forgeDownloadPlan (env : PlanEnv) (versionLibs installLibs : List MCLibrary) :
    List DLTask :=
  (dedupeByName (versionLibs ++ installLibs)).filterMap (planForgeLib env)

/-- Modelled from the spec: the classpath assembly lives in
`Minecraft-Arguments.js`, which is not present under src/; spec section 4.8
says the classpath is the merged set of resolved library files "filtered by
rule evaluation identical to section 4.5", so the model keeps exactly the
libraries that `skipLibrary` does not skip. -/
def classpathLibraries (platform : String) (libs : List MCLibrary) : List MCLibrary :=
  libs.filter (fun l => !(skipLibrary platform l))

/-- Concrete library on which the code and claim C1 disagree: a single
allow-Windows rule, evaluated on Linux. -/
def c1LibExample : MCLibrary :=
  { name := "org.lwjgl:lwjgl:3.3.3"
  , rules := some [{ action := RuleAction.allow, osName := some "windows", hasFeatures := false }]
  , natives := none
  , artifactPresent := true
  , artifactUrl := "https://libraries.minecraft.net/org/lwjgl/lwjgl/3.3.3/lwjgl-3.3.3.jar"
  , artifactSize := 1 }

/-- C1 counterexample: on Linux, a library whose only rule is
allow-on-Windows is SKIPPED by `skipLibrary` (the scan starts from
disallowed), while the claimed evaluation — start allowed unless some rule
denies — leaves it allowed; so rule evaluation does not start with the
library allowed. -/
theorem c1_counterexample :
    skipLibrary "linux" c1LibExample = true
    ∧ specRuleAllowed "linux" c1LibExample = true := by
  constructor <;> rfl

/-- C1 amended: with a rules list present, evaluation starts with the
library DISALLOWED; an allow rule with no OS clause or a matching OS clause
allows, and a disallow rule with no OS clause or a matching OS clause
disallows; a library without rules is always allowed; only libraries
evaluated as allowed are queued in the Forge download plan, and only they
appear among the (spec-modelled) classpath libraries. -/
theorem c1_rule_evaluation (platform : String) (lib : MCLibrary) (env : PlanEnv)
    (versionLibs installLibs : List MCLibrary) :
    (lib.rules = none → skipLibrary platform lib = false)
    ∧ skipLibrary platform lib = !(amendedRuleAllowed platform lib)
    ∧ (∀ t ∈ forgeDownloadPlan env versionLibs installLibs,
        ∃ l, l ∈ dedupeByName (versionLibs ++ installLibs)
          ∧ skipLibrary env.platform l = false
          ∧ planForgeLib env l = some t)
    ∧ (∀ l ∈ classpathLibraries platform (versionLibs ++ installLibs),
        skipLibrary platform l = false) := by
  have hplan : ∀ (l : MCLibrary) (t : DLTask),
      planForgeLib env l = some t → skipLibrary env.platform l = false := by
    intro l t h
    by_cases h1 : (env.skipForgeFilter && isForgeCoreLib l.name && artifactUrlFalsy l) = true
    · rw [planForgeLib, if_pos h1] at h
      exact absurd h (by simp)
    · by_cases h2 : skipLibrary env.platform l = true
      · rw [planForgeLib, if_neg h1, if_pos h2] at h
        exact absurd h (by simp)
      · simpa using h2
  refine ⟨?_, ?_, ?_, ?_⟩
  · intro h
    simp [skipLibrary, h]
  · cases hr : lib.rules with
    | none => simp [skipLibrary, amendedRuleAllowed, hr]
    | some rules =>
      simp only [skipLibrary, amendedRuleAllowed, hr]
      simpa using foldl_ruleStep_amended (libMap platform) rules true
  · intro t ht
    obtain ⟨l, hl, hfl⟩ := List.mem_filterMap.mp ht
    exact ⟨l, hl, hplan l t hfl, hfl⟩
  · intro l hl
    have := (List.mem_filter.mp hl).2
    simpa using this

/-- Witness for C1 amended at concrete inputs: a rule-free library is not
skipped, and the plan over a two-library list only contains the allowed
one. -/
theorem c1_rule_evaluation_witness :
    skipLibrary "linux"
      { name := "a:b:c", rules := none, natives := none
      , artifactPresent := false, artifactUrl := "", artifactSize := 0 } = false :=
  (c1_rule_evaluation "linux"
    { name := "a:b:c", rules := none, natives := none
    , artifactPresent := false, artifactUrl := "", artifactSize := 0 }
    { platform := "linux", rootPath := "/r", skipForgeFilter := false
    , onDisk := fun _ => false, mirror := fun _ => none }
    [] []).1 rfl

end MCLauncher

namespace MCLauncher

/-! ## Forge installer download (src/unnamed/part_011, 39-125)

`ForgeMC.downloadInstaller` picks the classifier — `installer`, else
`client`, else `universal`, else an "Invalid forge installer" error — and
its first key/hash entry (`Object.keys(...)[0]`; an empty classifier object
would give the JS string "undefined", kept by `headD`).  The installer jar
lands in `<root>/libraries/net/minecraftforge/installer/<file>`, skipping
the download when the file exists.  The MD5 of the file is compared to the
classifier hash; on mismatch the file is removed with `fs.rmSync` and the
call fails with "Invalid hash".  The store of downloaded files is a list of
path/MD5 pairs; `downloadHash` is the MD5 of the bytes the network would
deliver. -/

structure ForgeClassifiers where
  installer : Option (List (String × String))
  client : Option (List (String × String))
  universal : Option (List (String × String))
deriving DecidableEq, Repr

inductive ForgeFlavor where
  | installerF
  | clientF
  | universalF
deriving DecidableEq, Repr

/-- The classifier preference of `ForgeMC.downloadInstaller`
(src/unnamed/part_011 lines 75-98). -/
def chooseForgeFlavor (c : ForgeClassifiers) :
    Option (ForgeFlavor × List (String × String)) :=
  match c.installer with
  | some l => some (ForgeFlavor.installerF, l)
  | none =>
    match c.client with
    | some l => some (ForgeFlavor.clientF, l)
    | none =>
      match c.universal with
      | some l => some (ForgeFlavor.universalF, l)
      | none => none

/-- The per-flavor URL templates of the forge entry of the loader table
(src/nw-launcher/Launcher/utils/Index.js lines 76-85) with the version
substituted, as done in src/unnamed/part_011 lines 82-92. -/
def forgeTemplateURL (fl : ForgeFlavor) (build : String) : String :=
  match fl with
  | ForgeFlavor.installerF =>
    "https://maven.minecraftforge.net/net/minecraftforge/forge/" ++ build
      ++ "/forge-" ++ build ++ "-installer"
  | ForgeFlavor.clientF =>
    "https://maven.minecraftforge.net/net/minecraftforge/forge/" ++ build
      ++ "/forge-" ++ build ++ "-client"
  | ForgeFlavor.universalF =>
    "https://maven.minecraftforge.net/net/minecraftforge/forge/" ++ build
      ++ "/forge-" ++ build ++ "-universal"

def forgeInstallerFolder (root : String) : String :=
  root ++ "/libraries/net/minecraftforge/installer"

/-- The landing path of the installer: the folder joined with the last
slash-separated component of the download URL with its extension
(src/unnamed/part_011 lines 99-101). -/
def forgeInstallerPath (root build : String) (fl : ForgeFlavor) (ext : String) : String :=
  forgeInstallerFolder root ++ "/"
    ++ String.mk ((splitOnCh '/' ((forgeTemplateURL fl build) ++ "." ++ ext).data).getLastD [])

structure ForgeInstallerOk where
  filePath : String
  metaData : String
  ext : String
  id : String
deriving DecidableEq, Repr

/-- The existence check before downloading (src/unnamed/part_011 lines
103-112): an already present file is kept, otherwise the fetched bytes are
written. -/
def ensureDownloaded (disk : List (String × String)) (p dh : String) :
    List (String × String) :=
  if (disk.lookup p).isSome then disk else (p, dh) :: disk

/-- Embedding of `ForgeMC.downloadInstaller` (src/unnamed/part_011 lines
74-125) from the point where the metadata of the chosen build is in hand. -/
def downloadInstaller (root build : String) (cls : ForgeClassifiers)
    (disk : List (String × String)) (downloadHash : String) :
    Except String ForgeInstallerOk × List (String × String) :=
  match chooseForgeFlavor cls with
  | none => (Except.error "Invalid forge installer", disk)
  | some (fl, pairs) =>
    let ext := (pairs.headD ("undefined", "undefined")).1
    let hashFileOrigin := (pairs.headD ("undefined", "undefined")).2
    let installerPath := forgeInstallerPath root build fl ext
    let disk1 := ensureDownloaded disk installerPath downloadHash
    let hashFileDownload := (disk1.lookup installerPath).getD ""
    if hashFileDownload == hashFileOrigin then
      (Except.ok { filePath := installerPath, metaData := build
                 , ext := ext, id := "forge-" ++ build }, disk1)
    else
      (Except.error "Invalid hash", disk1.filter (fun q => q.1 != installerPath))

theorem lookup_filter_ne (l : List (String × String)) (k : String) :
    (l.filter (fun q => q.1 != k)).lookup k = none := by
  induction l with
  | nil => rfl
  | cons p ps ih =>
    obtain ⟨p1, p2⟩ := p
    by_cases hp : p1 = k
    · have hfalse : ((p1, p2).1 != k) = false := by simp [hp]
      simp only [List.filter_cons, hfalse]
      exact ih
    · have htrue : ((p1, p2).1 != k) = true := by simp [hp]
      simp only [List.filter_cons, htrue]
      have hk : (k == p1) = false := beq_eq_false_iff_ne.mpr (fun h => hp h.symm)
      simp only [List.lookup, hk]
      exact ih

/-- C6: the installer flavor preference is installer, else client, else
universal, rejecting otherwise; the installer jar lands under
libraries/net/minecraftforge/installer/; its MD5 is compared against the
classifier hash, and on mismatch the call fails with "Invalid hash" and the
file is removed from disk, while on match it succeeds with the file in
place. -/
theorem c6_forge_installer (root build : String) (cls : ForgeClassifiers)
    (disk : List (String × String)) (dh : String) :
    (∀ l, cls.installer = some l →
      chooseForgeFlavor cls = some (ForgeFlavor.installerF, l))
    ∧ (∀ l, cls.installer = none → cls.client = some l →
      chooseForgeFlavor cls = some (ForgeFlavor.clientF, l))
    ∧ (∀ l, cls.installer = none → cls.client = none → cls.universal = some l →
      chooseForgeFlavor cls = some (ForgeFlavor.universalF, l))
    ∧ (cls.installer = none → cls.client = none → cls.universal = none →
      downloadInstaller root build cls disk dh
        = (Except.error "Invalid forge installer", disk))
    ∧ (∀ r disk', downloadInstaller root build cls disk dh = (Except.ok r, disk') →
      ∃ fn, r.filePath = forgeInstallerFolder root ++ "/" ++ fn)
    ∧ (∀ fl pairs, chooseForgeFlavor cls = some (fl, pairs) →
      (((ensureDownloaded disk (forgeInstallerPath root build fl
            (pairs.headD ("undefined", "undefined")).1) dh).lookup
          (forgeInstallerPath root build fl (pairs.headD ("undefined", "undefined")).1)).getD ""
          = (pairs.headD ("undefined", "undefined")).2 →
        downloadInstaller root build cls disk dh
          = (Except.ok
              { filePath := forgeInstallerPath root build fl
                  (pairs.headD ("undefined", "undefined")).1
              , metaData := build
              , ext := (pairs.headD ("undefined", "undefined")).1
              , id := "forge-" ++ build }
            , ensureDownloaded disk (forgeInstallerPath root build fl
                (pairs.headD ("undefined", "undefined")).1) dh))
      ∧ (((ensureDownloaded disk (forgeInstallerPath root build fl
            (pairs.headD ("undefined", "undefined")).1) dh).lookup
          (forgeInstallerPath root build fl (pairs.headD ("undefined", "undefined")).1)).getD ""
          ≠ (pairs.headD ("undefined", "undefined")).2 →
        (downloadInstaller root build cls disk dh).1 = Except.error "Invalid hash"
        ∧ (downloadInstaller root build cls disk dh).2.lookup
            (forgeInstallerPath root build fl (pairs.headD ("undefined", "undefined")).1)
          = none)) := by
  refine ⟨?_, ?_, ?_, ?_, ?_, ?_⟩
  · intro l h
    simp [chooseForgeFlavor, h]
  · intro l h1 h2
    simp [chooseForgeFlavor, h1, h2]
  · intro l h1 h2 h3
    simp [chooseForgeFlavor, h1, h2, h3]
  · intro h1 h2 h3
    simp [downloadInstaller, chooseForgeFlavor, h1, h2, h3]
  · intro r disk' h
    unfold downloadInstaller at h
    cases hc : chooseForgeFlavor cls with
    | none =>
      rw [hc] at h
      simp at h
    | some flp =>
      obtain ⟨fl, pairs⟩ := flp
      rw [hc] at h
      simp only at h
      split at h
      · simp only [Prod.mk.injEq, Except.ok.injEq] at h
        obtain ⟨h1, h2⟩ := h
        refine ⟨String.mk ((splitOnCh '/' ((forgeTemplateURL fl build) ++ "."
          ++ (pairs.headD ("undefined", "undefined")).1).data).getLastD []), ?_⟩
        rw [← h1]
        rfl
      · simp at h
  · intro fl pairs hc
    constructor
    · intro hgood
      unfold downloadInstaller
      rw [hc]
      simp only
      rw [if_pos (by simpa using hgood)]
    · intro hbad
      unfold downloadInstaller
      rw [hc]
      simp only
      rw [if_neg (by simpa using hbad)]
      exact ⟨rfl, lookup_filter_ne _ _⟩

/-- Witness for C6 at concrete metadata: installer classifier present with
matching and with mismatching hash. -/
theorem c6_forge_installer_witness :
    downloadInstaller "/r" "1.20.1-47.2.0"
      { installer := some [("jar", "d41d8cd98f00b204e9800998ecf8427e")]
      , client := none, universal := none }
      [] "d41d8cd98f00b204e9800998ecf8427e"
      = (Except.ok
          { filePath := forgeInstallerPath "/r" "1.20.1-47.2.0" ForgeFlavor.installerF "jar"
          , metaData := "1.20.1-47.2.0", ext := "jar", id := "forge-1.20.1-47.2.0" }
        , [(forgeInstallerPath "/r" "1.20.1-47.2.0" ForgeFlavor.installerF "jar",
            "d41d8cd98f00b204e9800998ecf8427e")])
    ∧ (downloadInstaller "/r" "1.20.1-47.2.0"
      { installer := some [("jar", "d41d8cd98f00b204e9800998ecf8427e")]
      , client := none, universal := none }
      [] "badbadbadbadbadbadbadbadbadbadba").1 = Except.error "Invalid hash" := by
  constructor
  · have h := ((c6_forge_installer "/r" "1.20.1-47.2.0"
      { installer := some [("jar", "d41d8cd98f00b204e9800998ecf8427e")]
      , client := none, universal := none }
      [] "d41d8cd98f00b204e9800998ecf8427e").2.2.2.2.2
      ForgeFlavor.installerF [("jar", "d41d8cd98f00b204e9800998ecf8427e")]
      (by rfl)).1 (by decide)
    rw [h]
    rfl
  · exact (((c6_forge_installer "/r" "1.20.1-47.2.0"
      { installer := some [("jar", "d41d8cd98f00b204e9800998ecf8427e")]
      , client := none, universal := none }
      [] "badbadbadbadbadbadbadbadbadbadba").2.2.2.2.2
      ForgeFlavor.installerF [("jar", "d41d8cd98f00b204e9800998ecf8427e")]
      (by rfl)).2 (by decide)).1

end MCLauncher

namespace MCLauncher

/-! ## Batch downloading (src/unnamed/part_005, `Downloader.downloadFileMultiple`)

Every transfer path — stream `end`, stream `error`, and the `catch` around
`fetch` (which also receives timeout aborts) — increments `completed` and
starts the next queued task; failures additionally emit an `error` event.
The resolution poll fires once `completed === files.length`.  A batch run
is modelled as a fold over the per-task outcomes: a successful task streams
its byte chunks (each emitting a `progress` event), a failed one emits an
`error` event; both count toward `completed`. -/

inductive TransferOutcome where
  | success (chunks : List Nat)
  | failure (message : String)
deriving DecidableEq, Repr

inductive DLEvent where
  | progress (downloaded total : Nat)
  | errorEvent (message : String)
deriving DecidableEq, Repr

structure BatchState where
  completed : Nat
  downloaded : Nat
  events : List DLEvent
deriving DecidableEq, Repr

/-- The data-chunk loop of the response stream (src/unnamed/part_005 lines 97-101). -/
def streamChunks (size : Nat) (st : BatchState) (chunks : List Nat) : BatchState :=
  chunks.foldl (fun s c =>
    { s with downloaded := s.downloaded + c
           , events := s.events ++ [DLEvent.progress (s.downloaded + c) size] }) st

/-- One transfer of `downloadFileMultiple` (src/unnamed/part_005 lines
93-120): `end` increments `completed`; `error` and the `catch` branch emit
an error event and also increment `completed`. -/
def stepTransfer (size : Nat) (st : BatchState) (o : TransferOutcome) : BatchState :=
  match o with
  | TransferOutcome.success chunks =>
    let st' := streamChunks size st chunks
    { st' with completed := st'.completed + 1 }
  | TransferOutcome.failure m =>
    { st with events := st.events ++ [DLEvent.errorEvent m]
            , completed := st.completed + 1 }

def runBatch (size : Nat) (outcomes : List TransferOutcome) : BatchState :=
  outcomes.foldl (stepTransfer size) { completed := 0, downloaded := 0, events := [] }

/-- The `if (limit > files.length) limit = files.length` clamp
(src/unnamed/part_005 lines 62-63). -/
def clampLimit (limit n : Nat) : Nat := if limit > n then n else limit

def isErrorEvent : DLEvent → Bool
  | DLEvent.errorEvent _ => true
  | _ => false

def isFailure : TransferOutcome → Bool
  | TransferOutcome.failure _ => true
  | _ => false

theorem streamChunks_completed (size : Nat) (chunks : List Nat) :
    ∀ st : BatchState, (streamChunks size st chunks).completed = st.completed := by
  induction chunks with
  | nil => intro st; rfl
  | cons c cs ih => intro st; exact ih _

theorem streamChunks_errors (size : Nat) (chunks : List Nat) :
    ∀ st : BatchState,
      (streamChunks size st chunks).events.filter isErrorEvent
        = st.events.filter isErrorEvent := by
  induction chunks with
  | nil => intro st; rfl
  | cons c cs ih =>
    intro st
    rw [streamChunks, List.foldl_cons]
    have := ih { st with downloaded := st.downloaded + c
                       , events := st.events ++ [DLEvent.progress (st.downloaded + c) size] }
    rw [streamChunks] at this
    rw [this]
    simp [isErrorEvent]

theorem runBatch_invariant (size : Nat) (outcomes : List TransferOutcome) :
    ∀ st : BatchState,
      (outcomes.foldl (stepTransfer size) st).completed = st.completed + outcomes.length
      ∧ ((outcomes.foldl (stepTransfer size) st).events.filter isErrorEvent).length
          = (st.events.filter isErrorEvent).length + (outcomes.filter isFailure).length := by
  induction outcomes with
  | nil => intro st; simp
  | cons o os ih =>
    intro st
    simp only [List.foldl_cons]
    obtain ⟨ih1, ih2⟩ := ih (stepTransfer size st o)
    cases o with
    | success chunks =>
      constructor
      · rw [ih1]
        simp only [stepTransfer, streamChunks_completed size chunks st]
        simp [List.filter_cons, isFailure]
        omega
      · rw [ih2]
        simp only [stepTransfer]
        rw [show ({ streamChunks size st chunks with
              completed := (streamChunks size st chunks).completed + 1 } : BatchState).events
            = (streamChunks size st chunks).events from rfl]
        rw [streamChunks_errors size chunks st]
        simp [List.filter_cons, isFailure]
    | failure m =>
      constructor
      · rw [ih1]
        simp [stepTransfer, List.filter_cons, isFailure]
        omega
      · rw [ih2]
        simp [stepTransfer, List.filter_cons, isFailure, isErrorEvent]
        omega

/-- C7: for every mix of per-transfer outcomes, every task (failed or not)
counts toward `completed`, so the final count equals the number of tasks —
the resolution condition `completed === files.length` — and exactly the
failed transfers surface `error` events; the worker count is clamped by the
task count before starting. -/
theorem c7_batch_failures_counted (size : Nat) (outcomes : List TransferOutcome) :
    (runBatch size outcomes).completed = outcomes.length
    ∧ ((runBatch size outcomes).events.filter isErrorEvent).length
        = (outcomes.filter isFailure).length
    ∧ (∀ limit, clampLimit limit outcomes.length ≤ outcomes.length
        ∧ (limit ≤ outcomes.length → clampLimit limit outcomes.length = limit)) := by
  obtain ⟨h1, h2⟩ := runBatch_invariant size outcomes
    { completed := 0, downloaded := 0, events := [] }
  refine ⟨by simpa using h1, by simpa using h2, ?_⟩
  intro limit
  constructor
  · unfold clampLimit
    split <;> omega
  · intro h
    unfold clampLimit
    rw [if_neg (by omega)]

end MCLauncher

namespace MCLauncher

/-! ## The progress aggregator (src/unnamed/part_005, lines 69-82)

Every ~500 ms the interval computes the byte-rate sample of the elapsed
slice, keeps at most the last five samples (`shift` before `push` at
five), emits `speed` as their arithmetic mean, and emits `estimated` as
`(size - downloaded) / avgSpeed`.  Rationals stand in for JS floats. -/

/-- The sample-window update: drop the oldest sample at five, append. -/
def pushSpeedSample (speeds : List ℚ) (s : ℚ) : List ℚ :=
  (if 5 ≤ speeds.length then speeds.drop 1 else speeds) ++ [s]

structure AggregatorTick where
  speeds : List ℚ
  speedEvent : ℚ
  estimatedEvent : ℚ
deriving DecidableEq, Repr

/-- Embedding of one firing of the `estimated` interval of
`downloadFileMultiple` (src/unnamed/part_005 lines 70-82). -/
def aggregatorTick (speeds : List ℚ) (downloaded before size duration : ℚ) :
    AggregatorTick :=
  let sample := (downloaded - before) / duration
  let newSpeeds := pushSpeedSample speeds sample
  let avgSpeed := newSpeeds.sum / (newSpeeds.length : ℚ)
  { speeds := newSpeeds
  , speedEvent := avgSpeed
  , estimatedEvent := (size - downloaded) / avgSpeed }

/-- The last (at most) n entries of a list. -/
def lastN (n : Nat) (l : List ℚ) : List ℚ := l.drop (l.length - n)

/-- The sample window accumulated over a whole run of interval firings. -/
def speedsAfter (samples : List ℚ) : List ℚ := samples.foldl pushSpeedSample []

theorem lastN_length_le (n : Nat) (l : List ℚ) : (lastN n l).length ≤ n := by
  unfold lastN
  simp only [List.length_drop]
  omega

theorem pushSpeedSample_lastN (l : List ℚ) (s : ℚ) :
    pushSpeedSample (lastN 5 l) s = lastN 5 (l ++ [s]) := by
  unfold pushSpeedSample lastN
  by_cases h : 5 ≤ l.length
  · rw [if_pos (by simp only [List.length_drop]; omega)]
    rw [List.drop_drop]
    have hle : (l ++ [s]).length - 5 ≤ l.length := by
      simp only [List.length_append, List.length_cons, List.length_nil]
      omega
    rw [List.drop_append_of_le_length hle]
    have hidx : (l ++ [s]).length - 5 = l.length - 5 + 1 := by
      simp only [List.length_append, List.length_cons, List.length_nil]
      omega
    rw [hidx]
  · rw [if_neg (by simp only [List.length_drop]; omega)]
    have h0 : l.length - 5 = 0 := by omega
    have h1 : (l ++ [s]).length - 5 = 0 := by simp; omega
    rw [h0, h1, List.drop_zero, List.drop_zero]

theorem speedsAfter_eq_lastN (samples : List ℚ) : speedsAfter samples = lastN 5 samples := by
  suffices h : ∀ (ss hist : List ℚ),
      List.foldl pushSpeedSample (lastN 5 hist) ss = lastN 5 (hist ++ ss) by
    have := h samples []
    simpa [speedsAfter, lastN] using this
  intro ss
  induction ss with
  | nil => intro hist; simp
  | cons s rest ih =>
    intro hist
    simp only [List.foldl_cons]
    rw [pushSpeedSample_lastN hist s, ih (hist ++ [s])]
    simp

/-- C8: after any run of interval firings, the next `speed` event
equals the arithmetic mean of at most the last five per-interval byte-rate
samples (the window is exactly the last five of the sample history, or all
of them when fewer), and the `estimated` event equals
(declared_total − downloaded) / that average. -/
theorem c8_speed_estimate (history : List ℚ) (downloaded before size duration : ℚ) :
    (aggregatorTick (speedsAfter history) downloaded before size duration).speeds
      = lastN 5 (history ++ [(downloaded - before) / duration])
    ∧ (aggregatorTick (speedsAfter history) downloaded before size duration).speeds.length ≤ 5
    ∧ (aggregatorTick (speedsAfter history) downloaded before size duration).speedEvent
      = (lastN 5 (history ++ [(downloaded - before) / duration])).sum
        / ((lastN 5 (history ++ [(downloaded - before) / duration])).length : ℚ)
    ∧ (aggregatorTick (speedsAfter history) downloaded before size duration).estimatedEvent
      = (size - downloaded)
        / ((aggregatorTick (speedsAfter history) downloaded before size duration).speedEvent) := by
  have hsp : (aggregatorTick (speedsAfter history) downloaded before size duration).speeds
      = lastN 5 (history ++ [(downloaded - before) / duration]) := by
    show pushSpeedSample (speedsAfter history) ((downloaded - before) / duration) = _
    rw [speedsAfter_eq_lastN, pushSpeedSample_lastN]
  refine ⟨hsp, by rw [hsp]; exact lastN_length_le 5 _, ?_, rfl⟩
  show (pushSpeedSample (speedsAfter history) ((downloaded - before) / duration)).sum
      / ((pushSpeedSample (speedsAfter history) ((downloaded - before) / duration)).length : ℚ) = _
  rw [speedsAfter_eq_lastN, pushSpeedSample_lastN]

end MCLauncher

namespace MCLauncher

/-! ## Mod staging (src/Launcher/Launch.js 306-346, `Launch.setupMods`)

For each configured URL the staged file name is
`url.split('/').pop().split('?')[0]`; the download is skipped when a file
of that name already exists in the mods directory of the instance.  The mods
directory is modelled as the list of file names it holds. -/

/-- Embedding of the file-name derivation of `Launch.setupMods`
(src/Launcher/Launch.js line 330). -/
def modFileNameOfURL (url : String) : String :=
  String.mk ((splitOnCh '?' ((splitOnCh '/' url.data).getLastD [])).headD [])

/-- Embedding of one loop iteration of `Launch.setupMods`
(src/Launcher/Launch.js lines 328-345): the returned flag says whether a
download happened. -/
def stageModURL (modsDir : List String) (url : String) : List String × Bool :=
  let fileName := modFileNameOfURL url
  if fileName ∈ modsDir then (modsDir, false)
  else (modsDir ++ [fileName], true)

theorem mem_of_mem_splitOnCh (sep : Char) (l : List Char) :
    ∀ u ∈ splitOnCh sep l, ∀ c ∈ u, c ∈ l := by
  induction l with
  | nil =>
    intro u hu c hc
    simp [splitOnCh] at hu
    simp [hu] at hc
  | cons a as ih =>
    intro u hu c hc
    simp only [splitOnCh] at hu
    by_cases ha : a = sep
    · rw [if_pos ha] at hu
      simp at hu
      rcases hu with h | h
      · simp [h] at hc
      · exact List.mem_cons_of_mem a (ih u h c hc)
    · rw [if_neg ha] at hu
      cases hsp : splitOnCh sep as with
      | nil => exact absurd hsp (splitOnCh_ne_nil sep as)
      | cons y ys =>
        rw [hsp] at hu
        simp at hu
        rcases hu with h | h
        · rw [h] at hc
          simp at hc
          rcases hc with h' | h'
          · simp [h']
          · exact List.mem_cons_of_mem a (ih y (by simp [hsp]) c h')
        · exact List.mem_cons_of_mem a (ih u (by simp [hsp, h]) c hc)

theorem headD_mem_splitOnCh (sep : Char) (l : List Char) :
    (splitOnCh sep l).headD [] ∈ splitOnCh sep l := by
  cases h : splitOnCh sep l with
  | nil => exact absurd h (splitOnCh_ne_nil sep l)
  | cons y ys => simp

theorem getLastD_mem_splitOnCh (sep : Char) (l : List Char) :
    (splitOnCh sep l).getLastD [] ∈ splitOnCh sep l := by
  cases h : splitOnCh sep l with
  | nil => exact absurd h (splitOnCh_ne_nil sep l)
  | cons y ys =>
    rw [List.getLastD_eq_getLast?, List.getLast?_eq_getLast (y :: ys) (by simp)]
    simp [List.getLast_mem]

/-- C9: the staged file name carries neither a query marker nor a slash;
for a query-free URL it is exactly the last slash-separated segment;
staging skips when the file already exists; staging the same URL twice
downloads at most once and leaves exactly one file of that name in the
mods directory. -/
theorem c9_mod_staging (modsDir : List String) (url : String)
    (hcount : modsDir.count (modFileNameOfURL url) ≤ 1) :
    ('?' ∉ (modFileNameOfURL url).data ∧ '/' ∉ (modFileNameOfURL url).data)
    ∧ ('?' ∉ url.data →
        modFileNameOfURL url = String.mk ((splitOnCh '/' url.data).getLastD []))
    ∧ (modFileNameOfURL url ∈ modsDir → stageModURL modsDir url = (modsDir, false))
    ∧ (stageModURL (stageModURL modsDir url).1 url).1 = (stageModURL modsDir url).1
    ∧ (stageModURL (stageModURL modsDir url).1 url).2 = false
    ∧ (stageModURL (stageModURL modsDir url).1 url).1.count (modFileNameOfURL url) = 1 := by
  set fn := modFileNameOfURL url with hfn
  have hq : '?' ∉ fn.data := by
    rw [hfn]
    exact not_mem_of_mem_splitOnCh '?' _ _ (headD_mem_splitOnCh '?' _)
  have hs : '/' ∉ fn.data := by
    rw [hfn]
    intro hmem
    have h1 : '/' ∈ (splitOnCh '/' url.data).getLastD [] :=
      mem_of_mem_splitOnCh '?' _ _ (headD_mem_splitOnCh '?' _) _ hmem
    exact not_mem_of_mem_splitOnCh '/' url.data _
      (getLastD_mem_splitOnCh '/' url.data) h1
  have hnoq : '?' ∉ url.data →
      fn = String.mk ((splitOnCh '/' url.data).getLastD []) := by
    intro hu
    have hlast : '?' ∉ (splitOnCh '/' url.data).getLastD [] := by
      intro hmem
      exact hu (mem_of_mem_splitOnCh '/' url.data _
        (getLastD_mem_splitOnCh '/' url.data) _ hmem)
    rw [hfn, modFileNameOfURL, splitOnCh_of_not_mem '?' _ hlast]
    rfl
  by_cases hmem : fn ∈ modsDir
  · have hstage : stageModURL modsDir url = (modsDir, false) := by
      rw [stageModURL]
      simp only [← hfn]
      rw [if_pos hmem]
    have hcount1 : modsDir.count fn = 1 := by
      have := List.count_pos_iff.mpr hmem
      omega
    refine ⟨⟨hq, hs⟩, hnoq, fun _ => hstage, ?_, ?_, ?_⟩ <;>
      simp [hstage, stageModURL, ← hfn, hmem, hcount1]
  · have hstage : stageModURL modsDir url = (modsDir ++ [fn], true) := by
      rw [stageModURL]
      simp only [← hfn]
      rw [if_neg hmem]
    have hmem2 : fn ∈ modsDir ++ [fn] := by simp
    have hstage2 : stageModURL (modsDir ++ [fn]) url = (modsDir ++ [fn], false) := by
      rw [stageModURL]
      simp only [← hfn]
      rw [if_pos hmem2]
    have hcount0 : modsDir.count fn = 0 := List.count_eq_zero.mpr hmem
    refine ⟨⟨hq, hs⟩, hnoq, fun h => absurd h hmem, ?_, ?_, ?_⟩ <;>
      simp [hstage, hstage2, hcount0]

/-- Witness for C9 at a concrete Modrinth-style URL with a query string. -/
theorem c9_mod_staging_witness :
    (stageModURL
      (stageModURL [] "https://cdn.modrinth.com/data/x/mod.jar?version=1").1
      "https://cdn.modrinth.com/data/x/mod.jar?version=1").1.count
      (modFileNameOfURL "https://cdn.modrinth.com/data/x/mod.jar?version=1") = 1 :=
  (c9_mod_staging [] "https://cdn.modrinth.com/data/x/mod.jar?version=1"
    (by decide)).2.2.2.2.2

end MCLauncher

namespace MCLauncher

/-- Witness for C7 at a concrete batch with one failed transfer among
three: all three count toward completion, one error event surfaces, and a
worker limit of two stays at two. -/
theorem c7_batch_failures_counted_witness :
    (runBatch 100 [TransferOutcome.success [10, 20], TransferOutcome.failure "network",
      TransferOutcome.success [5]]).completed = 3
    ∧ ((runBatch 100 [TransferOutcome.success [10, 20], TransferOutcome.failure "network",
      TransferOutcome.success [5]]).events.filter isErrorEvent).length = 1
    ∧ clampLimit 2 3 = 2 :=
  ⟨(c7_batch_failures_counted 100 [TransferOutcome.success [10, 20],
      TransferOutcome.failure "network", TransferOutcome.success [5]]).1.trans (by decide),
   (c7_batch_failures_counted 100 [TransferOutcome.success [10, 20],
      TransferOutcome.failure "network", TransferOutcome.success [5]]).2.1.trans (by decide),
   ((c7_batch_failures_counted 100 [TransferOutcome.success [10, 20],
      TransferOutcome.failure "network", TransferOutcome.success [5]]).2.2 2).2 (by decide)⟩

end MCLauncher
